import Mathlib

/-!
Verification of the RupeeRoute expense-tracker (src/App.tsx, src/constants.ts,
src/services/geminiService.ts).

The embedding models the app state as pure data: an expense is a record of
strings and a rational amount (JS numbers are modelled as rationals, which is
exact for the currency values the app manipulates), and every operation of the
app that the claims mention is translated to a pure Lean function over that
data.

JS `Date` values are modelled as integers counting calendar days since
1970-01-01 (the runtime is modelled in the UTC time zone, so `toISOString`
prints the same calendar day the accessors `getFullYear`/`getMonth`/`getDate`
return, and the time-of-day component, which none of the modelled operations
depend on, is dropped). The conversion between day numbers and civil
(year, month, day) triples follows the ECMAScript specification of `Date`:
`dayFromYear` is the spec function DayFromYear, `yearFromDay` implements
YearFromTime (the unique year whose day span contains the day), the month
tables implement MonthFromTime/DateFromTime (written with the standard
153/5 closed forms, which agree with the ECMA month tables), `jsMakeDay`
implements MakeDay (which normalizes out-of-range month indices and
day-of-month values), and `dowJs` implements WeekDay.
-/

/-- Gregorian leap-year test (ECMA DaysInYear). -/
def isLeap (y : Int) : Bool := y % 4 == 0 && (y % 100 != 0 || y % 400 == 0)

/-- Leap indicator as an integer: 1 in leap years, 0 otherwise. -/
def leapN (y : Int) : Int := if isLeap y then 1 else 0

/-- Number of days in year `y`. -/
def daysInYear (y : Int) : Int := if isLeap y then 366 else 365

/-- Day number of January 1 of year `y` (ECMA DayFromYear). -/
def dayFromYear (y : Int) : Int :=
  365 * (y - 1970) + (y - 1969) / 4 - (y - 1901) / 100 + (y - 1601) / 400

/-- Fuel-bounded upward search for the year containing a day number. -/
def yearSearch : Nat → Int → Int → Int
  | 0, y, _ => y
  | n + 1, y, z => if dayFromYear (y + 1) ≤ z then yearSearch n (y + 1) z else y

/-- Year containing day number `z` (ECMA YearFromTime). The search starts at a
400-year-era lower bound, so 400 steps of fuel always suffice. -/
def yearFromDay (z : Int) : Int := yearSearch 400 (1970 + 400 * (z / 146097)) z

/-- Count of days strictly before month `m` (1-based) in a year with leap
indicator `l` (the ECMA month table, in closed form: for `m ≥ 3` the count is
the standard 153/5 interpolation shifted by the 59+l days of Jan-Feb). -/
def daysBeforeMonth (l m : Int) : Int :=
  if m = 1 then 0 else if m = 2 then 31
  else (153 * (m - 3) + 2) / 5 + 59 + l

/-- Days in month `m` (1-based) of a year with leap indicator `l`. -/
def daysInMonthL (l m : Int) : Int :=
  if m = 1 then 31 else if m = 2 then 28 + l
  else (153 * (m - 2) + 2) / 5 - (153 * (m - 3) + 2) / 5

/-- Month (1-based) containing day `d` (0-based) of a year with leap indicator
`l` (ECMA MonthFromTime, in the same closed form). -/
def monthFromDayWithinYear (l d : Int) : Int :=
  if d < 31 then 1 else if d < 59 + l then 2
  else (5 * (d - 59 - l) + 2) / 153 + 3

/-- Civil date (year, month, day) of day number `z`; month and day are
1-based. This is the triple a JS `Date` holding day `z` reports through
`getFullYear` / `getMonth` (0-based, hence month minus one) / `getDate`. -/
def civilFromDays (z : Int) : Int × Int × Int :=
  let y := yearFromDay z
  let dwy := z - dayFromYear y
  let m := monthFromDayWithinYear (leapN y) dwy
  (y, m, dwy - daysBeforeMonth (leapN y) m + 1)

/-- Day number of the civil date `y`-`m`-`d` (month and day 1-based). -/
def daysFromCivil (y m d : Int) : Int :=
  dayFromYear y + daysBeforeMonth (leapN y) m + (d - 1)

/-- Day of week of day number `z`, 0 = Sunday (ECMA WeekDay; day 0 was a
Thursday). This is what `Date.prototype.getDay` returns. -/
def dowJs (z : Int) : Int := (z + 4) % 7

/-- ECMA MakeDay: day number built from a year, a 0-based month index (any
integer, normalized into the year) and a day-of-month (any integer, added as
an offset to day 1 of the month). This is the semantics of the
`new Date(y, monthIndex, day)` constructor and of `setDate`. -/
def jsMakeDay (y mi dt : Int) : Int :=
  daysFromCivil (y + mi / 12) (mi % 12 + 1) 1 + (dt - 1)

theorem dayFromYear_succ (y : Int) : dayFromYear (y + 1) = dayFromYear y + daysInYear y := by
  unfold dayFromYear daysInYear isLeap
  simp only [Bool.and_eq_true, Bool.or_eq_true, beq_iff_eq, bne_iff_ne]
  split_ifs <;> omega

theorem dayFromYear_mono {y y' : Int} (h : y ≤ y') : dayFromYear y ≤ dayFromYear y' := by
  unfold dayFromYear
  omega

theorem dayFromYear_era (k : Int) : dayFromYear (1970 + 400 * k) = 146097 * k := by
  unfold dayFromYear
  omega

theorem yearSearch_spec (n : Nat) (y z : Int) (h1 : dayFromYear y ≤ z)
    (h2 : z < dayFromYear (y + n)) :
    dayFromYear (yearSearch n y z) ≤ z ∧ z < dayFromYear (yearSearch n y z + 1) := by
  induction n generalizing y with
  | zero => simp at h2; omega
  | succ n ih =>
      rw [yearSearch]
      split
      · apply ih (y + 1) (by assumption)
        have e : y + 1 + (n : Int) = y + ((n : Int) + 1) := by ring
        rw [e]
        simpa using h2
      · exact ⟨h1, by omega⟩

theorem yearFromDay_spec (z : Int) :
    dayFromYear (yearFromDay z) ≤ z ∧ z < dayFromYear (yearFromDay z + 1) := by
  unfold yearFromDay
  apply yearSearch_spec
  · rw [dayFromYear_era]
    omega
  · have e : (1970 + 400 * (z / 146097) + (400 : Nat)) = 1970 + 400 * (z / 146097 + 1) := by
      push_cast
      ring
    rw [e, dayFromYear_era]
    omega

theorem yearFromDay_unique {a z : Int} (h1 : dayFromYear a ≤ z) (h2 : z < dayFromYear (a + 1)) :
    yearFromDay z = a := by
  obtain ⟨g1, g2⟩ := yearFromDay_spec z
  by_contra hne
  rcases lt_or_gt_of_ne hne with h | h
  · have : dayFromYear (yearFromDay z + 1) ≤ dayFromYear a := dayFromYear_mono (by omega)
    omega
  · have : dayFromYear (a + 1) ≤ dayFromYear (yearFromDay z) := dayFromYear_mono (by omega)
    omega

theorem daysInYear_leapN (y : Int) : daysInYear y = 365 + leapN y := by
  unfold daysInYear leapN
  split_ifs <;> omega

theorem leapN_cases (y : Int) : leapN y = 0 ∨ leapN y = 1 := by
  unfold leapN
  split_ifs <;> simp

theorem month_char (l d : Int) (h0 : 0 ≤ d) (h1 : d < 365 + l) :
    1 ≤ monthFromDayWithinYear l d ∧ monthFromDayWithinYear l d ≤ 12 ∧
    daysBeforeMonth l (monthFromDayWithinYear l d) ≤ d ∧
    d - daysBeforeMonth l (monthFromDayWithinYear l d) <
      daysInMonthL l (monthFromDayWithinYear l d) := by
  unfold monthFromDayWithinYear daysBeforeMonth daysInMonthL
  split_ifs <;> omega

theorem mdw_eq (l d m : Int) (hl : l = 0 ∨ l = 1) (h1 : 1 ≤ m) (h2 : m ≤ 12)
    (hlo : daysBeforeMonth l m ≤ d) (hhi : d < daysBeforeMonth l m + daysInMonthL l m) :
    monthFromDayWithinYear l d = m := by
  unfold monthFromDayWithinYear daysBeforeMonth daysInMonthL at *
  split_ifs at * <;> omega

theorem dbm_bound (l m d : Int) (hm1 : 1 ≤ m) (hm2 : m ≤ 12) (hd1 : 1 ≤ d)
    (hd2 : d ≤ daysInMonthL l m) (hl : l = 0 ∨ l = 1) :
    0 ≤ daysBeforeMonth l m + d - 1 ∧ daysBeforeMonth l m + d - 1 < 365 + l := by
  unfold daysBeforeMonth daysInMonthL at *
  split_ifs at * <;> omega

theorem dbm_succ (l m : Int) (h1 : 1 ≤ m) (h2 : m ≤ 11) :
    daysBeforeMonth l (m + 1) = daysBeforeMonth l m + daysInMonthL l m := by
  unfold daysBeforeMonth daysInMonthL
  split_ifs <;> omega

theorem daysInMonthL_le (l m : Int) (hl : l = 0 ∨ l = 1) : daysInMonthL l m ≤ 31 := by
  unfold daysInMonthL
  split_ifs <;> omega

theorem daysInMonthL_pos (l m : Int) (hl : l = 0 ∨ l = 1) : 1 ≤ daysInMonthL l m := by
  unfold daysInMonthL
  split_ifs <;> omega

theorem civil_of_days_roundtrip (z : Int) :
    daysFromCivil (civilFromDays z).1 (civilFromDays z).2.1 (civilFromDays z).2.2 = z := by
  unfold daysFromCivil civilFromDays
  dsimp only
  omega

theorem civil_valid (z : Int) :
    1 ≤ (civilFromDays z).2.1 ∧ (civilFromDays z).2.1 ≤ 12 ∧
    1 ≤ (civilFromDays z).2.2 ∧
    (civilFromDays z).2.2 ≤ daysInMonthL (leapN (civilFromDays z).1) (civilFromDays z).2.1 := by
  obtain ⟨g1, g2⟩ := yearFromDay_spec z
  rw [dayFromYear_succ, daysInYear_leapN] at g2
  have hc := month_char (leapN (yearFromDay z)) (z - dayFromYear (yearFromDay z))
    (by omega) (by omega)
  unfold civilFromDays
  dsimp only
  omega

theorem days_of_civil_roundtrip (y m d : Int) (hm1 : 1 ≤ m) (hm2 : m ≤ 12)
    (hd1 : 1 ≤ d) (hd2 : d ≤ daysInMonthL (leapN y) m) :
    civilFromDays (daysFromCivil y m d) = (y, m, d) := by
  have hl := leapN_cases y
  have hb := dbm_bound (leapN y) m d hm1 hm2 hd1 hd2 hl
  have hy : yearFromDay (daysFromCivil y m d) = y := by
    apply yearFromDay_unique
    · unfold daysFromCivil
      omega
    · rw [dayFromYear_succ, daysInYear_leapN]
      unfold daysFromCivil
      omega
  unfold civilFromDays
  dsimp only
  rw [hy]
  have hdwy : daysFromCivil y m d - dayFromYear y = daysBeforeMonth (leapN y) m + (d - 1) := by
    unfold daysFromCivil
    omega
  rw [hdwy]
  rw [mdw_eq (leapN y) (daysBeforeMonth (leapN y) m + (d - 1)) m hl hm1 hm2
    (by omega) (by omega)]
  simp only [Prod.mk.injEq, true_and]
  omega

theorem yearFromDay_range {z : Int} (h0 : 0 ≤ z) (h1 : z ≤ 2932896) :
    0 ≤ yearFromDay z ∧ yearFromDay z ≤ 9999 := by
  obtain ⟨g1, g2⟩ := yearFromDay_spec z
  have e0 : dayFromYear 0 = -719528 := by decide
  have e1 : dayFromYear 10000 = 2932897 := by decide
  constructor
  · by_contra h
    have : dayFromYear (yearFromDay z + 1) ≤ dayFromYear 0 := dayFromYear_mono (by omega)
    omega
  · by_contra h
    have : dayFromYear 10000 ≤ dayFromYear (yearFromDay z) := dayFromYear_mono (by omega)
    omega

/-- Decimal digit characters. -/
def digitChar (n : Nat) : Char :=
  if n = 0 then '0' else if n = 1 then '1' else if n = 2 then '2' else if n = 3 then '3'
  else if n = 4 then '4' else if n = 5 then '5' else if n = 6 then '6' else if n = 7 then '7'
  else if n = 8 then '8' else '9'

/-- Two-digit zero-padded decimal rendering. -/
def pad2 (n : Nat) : List Char := [digitChar (n / 10 % 10), digitChar (n % 10)]

/-- Four-digit zero-padded decimal rendering. -/
def pad4 (n : Nat) : List Char :=
  [digitChar (n / 1000 % 10), digitChar (n / 100 % 10), digitChar (n / 10 % 10),
   digitChar (n % 10)]

/-- Model of the helper getFormattedDate (App.tsx line 23) and of every
`toISOString().split` call of the code: the calendar day of day number `z`
printed as YYYY-MM-DD (years of the modelled range have four digits). -/
def formatDate (z : Int) : String :=
  String.mk (pad4 (civilFromDays z).1.toNat ++
    '-' :: (pad2 (civilFromDays z).2.1.toNat ++ '-' :: pad2 (civilFromDays z).2.2.toNat))

/-- Decimal digit test on a character. -/
def isDigitCh (c : Char) : Bool := 48 ≤ c.toNat && c.toNat ≤ 57

/-- Numeric value of a digit character. -/
def digitVal (c : Char) : Nat := c.toNat - 48

/-- Model of the regular-expression test (geminiService.ts line 119): exactly
four digits, a dash, two digits, a dash, two digits. -/
def dateRegexOk (s : String) : Bool :=
  match s.data with
  | [c0, c1, c2, c3, c4, c5, c6, c7, c8, c9] =>
      isDigitCh c0 && isDigitCh c1 && isDigitCh c2 && isDigitCh c3 && c4 == '-' &&
      isDigitCh c5 && isDigitCh c6 && c7 == '-' && isDigitCh c8 && isDigitCh c9
  | _ => false

/-- Year, month and day fields read from a YYYY-MM-DD string (garbage on
strings of another shape; only used beneath a `dateRegexOk` or
`validDateStr` guard). -/
def parseYMD (s : String) : Int × Int × Int :=
  match s.data with
  | [c0, c1, c2, c3, _, c5, c6, _, c8, c9] =>
      (Int.ofNat (digitVal c0 * 1000 + digitVal c1 * 100 + digitVal c2 * 10 + digitVal c3),
       Int.ofNat (digitVal c5 * 10 + digitVal c6),
       Int.ofNat (digitVal c8 * 10 + digitVal c9))
  | _ => (0, 0, 0)

/-- Day-number sort key of a canonical date string: model of
`new Date(s).getTime()` up to the constant 86400000 ms/day factor, which
preserves all comparisons. Meaningful only on strings satisfying
`validDateStr`; the code invokes it only on stored expense dates. -/
def dateKey (s : String) : Int :=
  daysFromCivil (parseYMD s).1 (parseYMD s).2.1 (parseYMD s).2.2

/-- Canonical calendar-date strings: the YYYY-MM-DD shape with in-range month
and day, exactly the date-only strings the JS Date parser accepts as valid. -/
def validDateStr (s : String) : Bool :=
  dateRegexOk s &&
  (1 ≤ (parseYMD s).2.1 && (parseYMD s).2.1 ≤ 12 && 1 ≤ (parseYMD s).2.2 &&
   (parseYMD s).2.2 ≤ daysInMonthL (leapN (parseYMD s).1) (parseYMD s).2.1)

/-- Character-list comparison underlying the JS `<` operator on strings
(code-unit lexicographic; on the ASCII data of this app code units and code
points agree). -/
def charListLt : List Char → List Char → Bool
  | [], [] => false
  | [], _ :: _ => true
  | _ :: _, [] => false
  | a :: as, b :: bs => a.toNat < b.toNat || (a.toNat == b.toNat && charListLt as bs)

/-- JS `s < t` on strings. -/
def jsStrLt (s t : String) : Bool := charListLt s.data t.data

/-- JS `s <= t` on strings (the spec defines it as the negation of `t < s`). -/
def jsStrLe (s t : String) : Bool := ! jsStrLt t s

/-- Closed category set (src/constants.ts CATEGORIES). -/
def CATEGORIES : List String :=
  ["Food", "Transport", "Shopping", "Entertainment", "Health", "Utilities", "Other"]

/-- Closed payment-method set (src/constants.ts PAYMENT_METHODS). -/
def PAYMENT_METHODS : List String := ["UPI", "Card", "Cash"]

/-- An expense record (src/types.ts). Category and payment method are the
runtime string values; amounts are exact rationals. -/
structure Expense where
  id : String
  date : String
  category : String
  amount : ℚ
  description : String
  paymentMethod : String
  deriving DecidableEq, Repr

/-- A partially-filled expense (TS `Partial<Expense>`): a `none` field is the
JS value `undefined`. -/
structure PartialExpense where
  id : Option String
  date : Option String
  category : Option String
  amount : Option ℚ
  description : Option String
  paymentMethod : Option String
  deriving DecidableEq, Repr

/-- JS `a || b` for a string-or-undefined `a`: the default fires when `a` is
undefined or the empty string (both falsy). -/
def jsOrStr (x : Option String) (d : String) : String :=
  match x with
  | none => d
  | some s => if s = "" then d else s

/-- JS `a || b` for a number-or-undefined `a`: the default fires when `a` is
undefined or 0 (both falsy). -/
def jsOrNum (x : Option ℚ) (d : ℚ) : ℚ :=
  match x with
  | none => d
  | some a => if a = 0 then d else a

/-- Expense built by the creation branch of handleSaveExpense (App.tsx lines
67-74). `freshId` is the `new Date().toISOString()` timestamp of the save
instant and `today` the current formatted date, both inputs of the model. -/
def buildNewExpense (freshId today : String) (sub : PartialExpense) : Expense :=
  { id := freshId
    date := jsOrStr sub.date today
    category := jsOrStr sub.category "Other"
    amount := jsOrNum sub.amount 0
    description := jsOrStr sub.description ""
    paymentMethod := jsOrStr sub.paymentMethod "UPI" }

/-- Model of the TS cast `expenseToSave as Expense` of the edit branch: the
submitted record is treated as fully populated (reachable edit submissions
always are; absent fields fall back to defaults only to make the model
total). -/
def castExpense (i : String) (sub : PartialExpense) : Expense :=
  { id := i
    date := sub.date.getD ""
    category := sub.category.getD ""
    amount := sub.amount.getD 0
    description := sub.description.getD ""
    paymentMethod := sub.paymentMethod.getD "" }

/-- Model of handleSaveExpense (App.tsx lines 62-77). The source guard
`if (expenseToSave.id)` is JS truthiness: an id that is `undefined` or the
empty string is falsy and takes the creation branch (construct a new expense
and prepend it); a non-empty id takes the edit branch (map over the stored
list replacing entries whose id matches). -/
def handleSaveExpense (freshId today : String) (sub : PartialExpense)
    (prev : List Expense) : List Expense :=
  match sub.id with
  | some i =>
      if i = "" then buildNewExpense freshId today sub :: prev
      else prev.map (fun x => if x.id = i then castExpense i sub else x)
  | none => buildNewExpense freshId today sub :: prev

/-- Sort modes (src/types.ts SortOption). -/
inductive SortOption
  | latest
  | amount
  deriving DecidableEq, Repr

/-- Total preorder induced by the Latest comparator
`(a, b) => new Date(b.date).getTime() - new Date(a.date).getTime()`:
`a` may precede `b` exactly when the comparator is nonpositive. -/
def latestLe (a b : Expense) : Bool := decide (dateKey b.date ≤ dateKey a.date)

/-- Total preorder induced by the Amount comparator
`(a, b) => b.amount - a.amount`. -/
def amountLe (a b : Expense) : Bool := decide (b.amount ≤ a.amount)

/-- Comparator selected by the sort option (App.tsx lines 171-176). -/
def sortLe (opt : SortOption) : Expense → Expense → Bool :=
  match opt with
  | .latest => latestLe
  | .amount => amountLe

/-- Model of the `.sort(...)` step: JS Array.prototype.sort is required to be
stable and, under a consistent comparator, produces the unique stable order,
here realized by a stable merge sort. -/
def sortExpenses (opt : SortOption) (L : List Expense) : List Expense :=
  L.mergeSort (sortLe opt)

/-- Category filter predicate (App.tsx line 169). -/
def categoryPred (filterCategory : String) (e : Expense) : Bool :=
  filterCategory == "All" || e.category == filterCategory

/-- Date filter predicate (App.tsx line 170): an empty filter accepts all. -/
def datePred (filterDate : String) (e : Expense) : Bool :=
  filterDate == "" || e.date == filterDate

/-- Model of the filteredExpenses memo (App.tsx lines 167-177): two filter
passes then the selected sort, all on fresh lists (the JS `filter` calls copy,
so the in-place `.sort` never touches the stored array). -/
def filteredExpenses (expenses : List Expense) (filterCategory filterDate : String)
    (opt : SortOption) : List Expense :=
  sortExpenses opt ((expenses.filter (categoryPred filterCategory)).filter (datePred filterDate))

/-- One accumulation step of the category totals (App.tsx lines 191-193). A JS
object keyed by non-numeric strings enumerates in key-insertion order: a first
assignment appends the key, later assignments update in place. -/
def addCategoryAmount (acc : List (String × ℚ)) (c : String) (a : ℚ) : List (String × ℚ) :=
  if acc.any (fun p => p.1 = c) then acc.map (fun p => if p.1 = c then (p.1, p.2 + a) else p)
  else acc ++ [(c, a)]

/-- Model of the pieChartData memo (App.tsx lines 189-195): accumulate per
category, then `Object.entries` in insertion order. -/
def pieChartData (L : List Expense) : List (String × ℚ) :=
  L.foldl (fun acc e => addCategoryAmount acc e.category e.amount) []

/-- One bucket of the weekly-trend series. -/
structure TrendBucket where
  name : String
  date : String
  amount : ℚ
  deriving DecidableEq, Repr

/-- Short weekday label of week day `w` (0 = Sunday), model of
`toLocaleDateString` with the en-US weekday short format. -/
def weekdayShort (w : Int) : String :=
  if w = 0 then "Sun" else if w = 1 then "Mon" else if w = 2 then "Tue"
  else if w = 3 then "Wed" else if w = 4 then "Thu" else if w = 5 then "Fri" else "Sat"

/-- The 7 zero-amount buckets (App.tsx lines 199-207): day `today - i` for
i = 0..6, then reversed, so oldest first. -/
def initialBuckets (today : Int) : List TrendBucket :=
  ((List.range 7).map (fun i =>
    { name := weekdayShort (dowJs (today - i))
      date := formatDate (today - i)
      amount := 0 })).reverse

/-- Body of the forEach (App.tsx lines 209-212): find the first bucket whose
date key equals the expense date and add the amount in place. -/
def bumpBucket : List TrendBucket → String → ℚ → List TrendBucket
  | [], _, _ => []
  | b :: bs, dt, a =>
      if b.date = dt then { b with amount := b.amount + a } :: bs
      else b :: bumpBucket bs dt a

/-- Model of the weeklyTrendData memo (App.tsx lines 197-214), fed with the
unfiltered expense list. -/
def weeklyTrendData (today : Int) (expenses : List Expense) : List TrendBucket :=
  expenses.foldl (fun bs e => bumpBucket bs e.date e.amount) (initialBuckets today)

/-- Report period selector (App.tsx line 486). -/
inductive Period
  | thisWeek
  | lastWeek
  | thisMonth
  | lastMonth
  deriving DecidableEq, Repr

/-- Date-range computation of generateReport (App.tsx lines 487-514), on day
numbers. `mi` is the 0-based month index getMonth returns; the month
arithmetic goes through `jsMakeDay`, the MakeDay normalization that
`new Date(y, m, d)` and `setDate` perform. -/
def reportRange (p : Period) (z : Int) : Int × Int :=
  let y := (civilFromDays z).1
  let mi := (civilFromDays z).2.1 - 1
  let dt := (civilFromDays z).2.2
  match p with
  | .thisMonth => (jsMakeDay y mi 1, z)
  | .lastMonth => (jsMakeDay y (mi - 1) 1, jsMakeDay y mi 0)
  | .thisWeek => (jsMakeDay y mi (dt - dowJs z), z)
  | .lastWeek =>
      let e := jsMakeDay y mi (dt - dowJs z - 1)
      (jsMakeDay (civilFromDays e).1 ((civilFromDays e).2.1 - 1) ((civilFromDays e).2.2 - 6), e)

/-- English month name (model of `toLocaleString` with the long month
format). -/
def monthName (m : Int) : String :=
  if m = 1 then "January" else if m = 2 then "February" else if m = 3 then "March"
  else if m = 4 then "April" else if m = 5 then "May" else if m = 6 then "June"
  else if m = 7 then "July" else if m = 8 then "August" else if m = 9 then "September"
  else if m = 10 then "October" else if m = 11 then "November" else "December"

/-- Report title (App.tsx lines 495, 500, 505, 512). -/
def reportTitle (p : Period) (z : Int) : String :=
  match p with
  | .thisMonth => "Report for " ++ monthName (civilFromDays z).2.1
  | .lastMonth => "Report for " ++ monthName (civilFromDays (reportRange .lastMonth z).1).2.1
  | .thisWeek => "This Week Report"
  | .lastWeek => "Last Week Report"

/-- Model of generateReport (App.tsx lines 486-523): compute the range, format
its bounds, keep the expenses whose date string lies between them (JS `>=` and
`<=` on strings), sort descending by date, bundle with the title. -/
def generateReport (p : Period) (z : Int) (expenses : List Expense) : String × List Expense :=
  (reportTitle p z,
   sortExpenses .latest (expenses.filter (fun e =>
     jsStrLe (formatDate (reportRange p z).1) e.date &&
     jsStrLe e.date (formatDate (reportRange p z).2))))

/-- Structured record parsed from the extraction response
(geminiService.ts responseSchema: all five fields required). -/
structure RawExtract where
  date : String
  category : String
  amount : ℚ
  description : String
  paymentMethod : String
  deriving DecidableEq, Repr

/-- JS truthiness test of the API_KEY environment value: undefined and the
empty string are falsy. -/
def keyFalsy (apiKey : Option String) : Bool :=
  match apiKey with
  | none => true
  | some s => s == ""

/-- Model of getSavingTips (geminiService.ts lines 13-50). `remote` stands for
the awaited generateContent call: `ok` carries the response text, `error` any
thrown remote failure. The function always returns a string, never throws. -/
def getSavingTips (apiKey : Option String) (expenses : List Expense)
    (remote : Except Unit String) : String :=
  if keyFalsy apiKey then
    "Smart suggestions are currently unavailable. Please configure your Gemini API key."
  else if expenses.length = 0 then
    "No expenses recorded yet. Add some expenses to get personalized savings tips!"
  else
    match remote with
    | .ok t => t
    | .error _ =>
        "Sorry, I couldn\x27t generate savings tips at the moment. Please try again later."

/-- Model of extractExpenseFromImage (geminiService.ts lines 52-135). `remote`
stands for the awaited generateContent call plus the JSON parse: `ok` carries
the parsed record, `error` any remote or parsing failure. `today` is the
current formatted date used by the date coercion. A thrown JS Error is the
`Except.error` case carrying its message. -/
def extractExpenseFromImage (apiKey : Option String) (today : String)
    (categories : List String) (remote : Except Unit RawExtract) : Except String RawExtract :=
  if keyFalsy apiKey then
    .error "API_KEY environment variable not set. Smart features are not available."
  else
    match remote with
    | .error _ => .error "Could not analyze the image. Please try again or enter the details manually."
    | .ok raw =>
        .ok { date := if dateRegexOk raw.date then raw.date else today
              category := if categories.contains raw.category then raw.category else "Other"
              amount := raw.amount
              description := raw.description
              paymentMethod := if PAYMENT_METHODS.contains raw.paymentMethod then raw.paymentMethod
                else "UPI" }

/-- Data-model invariant of a stored expense, written from the spec (section
3): positive amount, canonical date, non-empty description, category and
payment method in their closed sets. -/
def specExpenseValid (e : Expense) : Prop :=
  0 < e.amount ∧ dateRegexOk e.date = true ∧ e.description ≠ "" ∧
  e.category ∈ CATEGORIES ∧ e.paymentMethod ∈ PAYMENT_METHODS

/-- Identifier uniqueness of a stored list, written from the spec (section
3). -/
def idsUnique (L : List Expense) : Prop := (L.map (fun e => e.id)).Nodup

/-- Previous calendar month, written from the spec (section 4.4). -/
def specPrevMonth (y m : Int) : Int × Int := if m = 1 then (y - 1, 12) else (y, m - 1)

/-- Period ranges written from the spec text (section 4.4): first day of the
current month through today; the full previous month; the most recent Sunday
on or before today through today; the seven days ending on the Saturday just
before that Sunday. -/
def specPeriodRange (p : Period) (z : Int) : Int × Int :=
  match p with
  | .thisMonth => (daysFromCivil (civilFromDays z).1 (civilFromDays z).2.1 1, z)
  | .lastMonth =>
      let pm := specPrevMonth (civilFromDays z).1 (civilFromDays z).2.1
      (daysFromCivil pm.1 pm.2 1, daysFromCivil pm.1 pm.2 (daysInMonthL (leapN pm.1) pm.2))
  | .thisWeek => (z - dowJs z, z)
  | .lastWeek => (z - dowJs z - 7, z - dowJs z - 1)

/-- Keys of a list in first-occurrence order, written from the spec
(sections 3 and 4.2: one entry per distinct category, insertion order). -/
def firstOccurrences (l : List String) : List String :=
  l.foldl (fun acc c => if c ∈ acc then acc else acc ++ [c]) []

/-- C9: getSavingTips never throws past the gateway boundary (it is modelled
as a total String-valued function: every remote failure is a value, not an
exception) and returns the fixed unavailable message when no credential is
configured, the fixed add-expenses message when the credential is present but
the list is empty, and the fixed apology string instead of propagating a
remote failure. -/
theorem getSavingTips_spec (apiKey : Option String) (L : List Expense)
    (r : Except Unit String) :
    (keyFalsy apiKey = true →
      getSavingTips apiKey L r =
        "Smart suggestions are currently unavailable. Please configure your Gemini API key.") ∧
    (keyFalsy apiKey = false → L = [] →
      getSavingTips apiKey L r =
        "No expenses recorded yet. Add some expenses to get personalized savings tips!") ∧
    (keyFalsy apiKey = false → L ≠ [] →
      getSavingTips apiKey L (Except.error ()) =
        "Sorry, I couldn\x27t generate savings tips at the moment. Please try again later.") := by
  refine ⟨?_, ?_, ?_⟩
  · intro h
    simp [getSavingTips, h]
  · intro h1 h2
    simp [getSavingTips, h1, h2]
  · intro h1 h2
    simp [getSavingTips, h1, List.length_eq_zero, h2]

/-- C8: extractExpenseFromImage fails with the unavailable error exactly when
no usable credential is configured, fails with the could-not-analyze message
on any remote or parsing failure, and on success returns a record whose
category is in the allowed set or was coerced to Other, whose payment method
is in the closed set (unknown values are coerced to UPI), and whose date is in
canonical format or was coerced to the current date. -/
theorem extractExpenseFromImage_spec (apiKey : Option String) (today : String)
    (cats : List String) (r : Except Unit RawExtract) :
    (keyFalsy apiKey = true →
      extractExpenseFromImage apiKey today cats r =
        .error "API_KEY environment variable not set. Smart features are not available.") ∧
    (keyFalsy apiKey = false →
      extractExpenseFromImage apiKey today cats (Except.error ()) =
        .error "Could not analyze the image. Please try again or enter the details manually.") ∧
    (∀ out, extractExpenseFromImage apiKey today cats r = .ok out →
      (out.category ∈ cats ∨ out.category = "Other") ∧
      (out.paymentMethod ∈ PAYMENT_METHODS) ∧
      (out.paymentMethod ∈ PAYMENT_METHODS ∨ out.paymentMethod = "UPI") ∧
      (dateRegexOk out.date = true ∨ out.date = today)) := by
  refine ⟨?_, ?_, ?_⟩
  · intro h
    simp [extractExpenseFromImage, h]
  · intro h
    simp [extractExpenseFromImage, h]
  · intro out hout
    unfold extractExpenseFromImage at hout
    by_cases hk : keyFalsy apiKey = true
    · simp [hk] at hout
    · simp only [Bool.not_eq_true] at hk
      simp only [hk, Bool.false_eq_true, if_false] at hout
      cases r with
      | error e => simp at hout
      | ok raw =>
          simp only [Except.ok.injEq] at hout
          subst hout
          refine ⟨?_, ?_, ?_, ?_⟩
          · by_cases hc : raw.category ∈ cats
            · left
              dsimp only
              rw [if_pos (by simpa using hc)]
              exact hc
            · right
              dsimp only
              rw [if_neg (by simpa using hc)]
          · by_cases hp : raw.paymentMethod ∈ PAYMENT_METHODS
            · dsimp only
              rw [if_pos (by simpa using hp)]
              exact hp
            · dsimp only
              rw [if_neg (by simpa using hp)]
              decide
          · by_cases hp : raw.paymentMethod ∈ PAYMENT_METHODS
            · left
              dsimp only
              rw [if_pos (by simpa using hp)]
              exact hp
            · right
              dsimp only
              rw [if_neg (by simpa using hp)]
          · by_cases hd : dateRegexOk raw.date = true
            · left
              dsimp only
              rw [if_pos hd]
              exact hd
            · right
              dsimp only
              rw [if_neg hd]

/-- C10: saving with a falsy id (absent or the empty string, per the
source's truthiness guard) prepends the newly built expense and leaves the
stored list untouched behind it; saving with a non-empty id maps the list
through a point replacement, so the length is kept, each position holds the
update exactly when the stored id matches, and a list containing no matching
id is returned unchanged. -/
theorem handleSaveExpense_frame (freshId today : String) (sub : PartialExpense)
    (prev : List Expense) :
    ((sub.id = none ∨ sub.id = some "") →
      handleSaveExpense freshId today sub prev = buildNewExpense freshId today sub :: prev) ∧
    (∀ i, sub.id = some i → i ≠ "" →
      (handleSaveExpense freshId today sub prev).length = prev.length ∧
      (∀ k : Nat, (handleSaveExpense freshId today sub prev)[k]? =
        (prev[k]?).map (fun x => if x.id = i then castExpense i sub else x)) ∧
      ((∀ e ∈ prev, e.id ≠ i) → handleSaveExpense freshId today sub prev = prev)) := by
  refine ⟨?_, ?_⟩
  · rintro (h | h) <;> simp [handleSaveExpense, h]
  · intro i h hne
    have hdef : handleSaveExpense freshId today sub prev =
        prev.map (fun x => if x.id = i then castExpense i sub else x) := by
      simp only [handleSaveExpense, h]
      rw [if_neg hne]
    rw [hdef]
    refine ⟨List.length_map _ _, fun k => List.getElem?_map _ _ _, fun hno => ?_⟩
    have hid : ∀ x ∈ prev, (if x.id = i then castExpense i sub else x) = x := by
      intro x hx
      simp [hno x hx]
    rw [List.map_congr_left hid, List.map_id' prev]

/-- C3: the filter pipeline returns exactly the expenses of the input list
satisfying both the category and the date predicate — every output element
comes from the input and matches both, every matching input element appears in
the output, and the output length is the count of matching input elements.
The embedding is a pure function of the input list, which therefore cannot be
mutated (the JS code filters into fresh arrays before its in-place sort). -/
theorem filteredExpenses_spec (L : List Expense) (cat dt : String) (opt : SortOption) :
    (∀ e ∈ filteredExpenses L cat dt opt,
      e ∈ L ∧ categoryPred cat e = true ∧ datePred dt e = true) ∧
    (∀ e ∈ L, categoryPred cat e = true → datePred dt e = true →
      e ∈ filteredExpenses L cat dt opt) ∧
    (filteredExpenses L cat dt opt).length =
      L.countP (fun e => datePred dt e && categoryPred cat e) := by
  refine ⟨?_, ?_, ?_⟩
  · intro e he
    have : e ∈ (L.filter (categoryPred cat)).filter (datePred dt) := by
      simpa [filteredExpenses, sortExpenses] using he
    simp only [List.mem_filter] at this
    exact ⟨this.1.1, this.1.2, this.2⟩
  · intro e he h1 h2
    simp only [filteredExpenses, sortExpenses, List.mem_mergeSort, List.mem_filter]
    exact ⟨⟨he, h1⟩, h2⟩
  · simp only [filteredExpenses, sortExpenses, List.length_mergeSort, List.filter_filter]
    exact (List.countP_eq_length_filter _ _).symm

theorem latestLe_trans (a b c : Expense) : latestLe a b → latestLe b c → latestLe a c := by
  simp only [latestLe, decide_eq_true_eq]
  omega

theorem latestLe_total (a b : Expense) : latestLe a b || latestLe b a := by
  simp only [latestLe, Bool.or_eq_true, decide_eq_true_eq]
  omega

theorem amountLe_trans (a b c : Expense) : amountLe a b → amountLe b c → amountLe a c := by
  simp only [amountLe, decide_eq_true_eq]
  intro h1 h2
  exact le_trans h2 h1

theorem amountLe_total (a b : Expense) : amountLe a b || amountLe b a := by
  simp only [amountLe, Bool.or_eq_true, decide_eq_true_eq]
  exact le_total b.amount a.amount

/-- C4: Latest orders the list descending by date key and Amount descending by
amount; both sorts are stable — any two elements in original relative order
whose keys tie keep that order — and both are idempotent, so sorting an
already-sorted list changes nothing. -/
theorem sortExpenses_spec (L : List Expense) :
    ((sortExpenses .latest L).Pairwise (fun a b => dateKey b.date ≤ dateKey a.date)) ∧
    ((sortExpenses .amount L).Pairwise (fun a b => b.amount ≤ a.amount)) ∧
    (∀ a b, [a, b].Sublist L → dateKey a.date = dateKey b.date →
      [a, b].Sublist (sortExpenses .latest L)) ∧
    (∀ a b, [a, b].Sublist L → a.amount = b.amount →
      [a, b].Sublist (sortExpenses .amount L)) ∧
    sortExpenses .latest (sortExpenses .latest L) = sortExpenses .latest L ∧
    sortExpenses .amount (sortExpenses .amount L) = sortExpenses .amount L := by
  refine ⟨?_, ?_, ?_, ?_, ?_, ?_⟩
  · have h := List.sorted_mergeSort latestLe_trans latestLe_total L
    exact h.imp (fun hab => by simpa [latestLe, decide_eq_true_eq] using hab)
  · have h := List.sorted_mergeSort amountLe_trans amountLe_total L
    exact h.imp (fun hab => by simpa [amountLe, decide_eq_true_eq] using hab)
  · intro a b hsub hk
    apply List.pair_sublist_mergeSort latestLe_trans latestLe_total _ hsub
    simp [latestLe, decide_eq_true_eq, hk]
  · intro a b hsub hk
    apply List.pair_sublist_mergeSort amountLe_trans amountLe_total _ hsub
    simp [amountLe, decide_eq_true_eq, hk]
  · exact List.mergeSort_of_sorted (List.sorted_mergeSort latestLe_trans latestLe_total L)
  · exact List.mergeSort_of_sorted (List.sorted_mergeSort amountLe_trans amountLe_total L)

/-- C7: the generated report holds a permutation of the sublist of expenses
whose date string lies in the formatted inclusive range under JS string
comparison — membership is exactly the two string bounds — sorted descending
by date key; and the report is a pure function of the period, the current day
and the list, so recomputing on identical inputs returns an identical
result. -/
theorem generateReport_spec (p : Period) (z : Int) (L : List Expense) :
    ((generateReport p z L).2.Perm (L.filter (fun e =>
      jsStrLe (formatDate (reportRange p z).1) e.date &&
      jsStrLe e.date (formatDate (reportRange p z).2)))) ∧
    (∀ e, e ∈ (generateReport p z L).2 ↔
      (e ∈ L ∧ jsStrLe (formatDate (reportRange p z).1) e.date = true ∧
       jsStrLe e.date (formatDate (reportRange p z).2) = true)) ∧
    ((generateReport p z L).2.Pairwise (fun a b => dateKey b.date ≤ dateKey a.date)) ∧
    generateReport p z L = generateReport p z L := by
  refine ⟨?_, ?_, ?_, rfl⟩
  · exact List.mergeSort_perm _ _
  · intro e
    simp only [generateReport, sortExpenses, List.mem_mergeSort, List.mem_filter,
      Bool.and_eq_true, and_assoc]
  · have h := List.sorted_mergeSort latestLe_trans latestLe_total
      (L.filter (fun e =>
        jsStrLe (formatDate (reportRange p z).1) e.date &&
        jsStrLe e.date (formatDate (reportRange p z).2)))
    exact h.imp (fun hab => by simpa [latestLe, decide_eq_true_eq] using hab)

theorem daysFromCivil_shift (y m d t : Int) :
    daysFromCivil y m (d + t) = daysFromCivil y m d + t := by
  unfold daysFromCivil
  ring

theorem jsMakeDay_eq (y m dt : Int) (hm1 : 1 ≤ m) (hm2 : m ≤ 12) :
    jsMakeDay y (m - 1) dt = daysFromCivil y m dt := by
  unfold jsMakeDay
  have h1 : (m - 1) / 12 = 0 := by omega
  have h2 : (m - 1) % 12 = m - 1 := by omega
  rw [h1, h2]
  have h3 : m - 1 + 1 = m := by ring
  rw [h3, add_zero]
  unfold daysFromCivil
  ring

theorem jsMakeDay_neg1 (y dt : Int) : jsMakeDay y (-1) dt = daysFromCivil (y - 1) 12 dt := by
  unfold jsMakeDay
  have d1 : (-1 : Int) / 12 = -1 := by decide
  have d2 : (-1 : Int) % 12 = 11 := by decide
  rw [d1, d2]
  have e1 : y + -1 = y - 1 := by ring
  have e2 : (11 : Int) + 1 = 12 := by norm_num
  rw [e1, e2]
  unfold daysFromCivil
  ring

theorem jsMakeDay_prev_start (y m : Int) (hm1 : 1 ≤ m) (hm2 : m ≤ 12) :
    jsMakeDay y (m - 1 - 1) 1 =
      daysFromCivil (specPrevMonth y m).1 (specPrevMonth y m).2 1 := by
  unfold specPrevMonth
  by_cases h : m = 1
  · subst h
    rw [if_pos rfl]
    dsimp only
    have e : (1 : Int) - 1 - 1 = -1 := by norm_num
    rw [e, jsMakeDay_neg1]
  · rw [if_neg h]
    dsimp only
    exact jsMakeDay_eq y (m - 1) 1 (by omega) (by omega)

theorem lastMonth_end_eq (y m : Int) (hm1 : 1 ≤ m) (hm2 : m ≤ 12) :
    jsMakeDay y (m - 1) 0 =
      daysFromCivil (specPrevMonth y m).1 (specPrevMonth y m).2
        (daysInMonthL (leapN (specPrevMonth y m).1) (specPrevMonth y m).2) := by
  rw [jsMakeDay_eq y m 0 hm1 hm2]
  unfold specPrevMonth
  by_cases h : m = 1
  · subst h
    rw [if_pos rfl]
    dsimp only
    have hs := dayFromYear_succ (y - 1)
    rw [daysInYear_leapN] at hs
    have e : y - 1 + 1 = y := by ring
    rw [e] at hs
    have h12 : daysInMonthL (leapN (y - 1)) 12 = 31 := by
      unfold daysInMonthL
      norm_num
    rw [h12]
    unfold daysFromCivil daysBeforeMonth
    norm_num
    omega
  · rw [if_neg h]
    dsimp only
    have hd := dbm_succ (leapN y) (m - 1) (by omega) (by omega)
    have e : m - 1 + 1 = m := by ring
    rw [e] at hd
    unfold daysFromCivil
    omega

theorem reportRange_thisMonth (z : Int) :
    reportRange .thisMonth z = specPeriodRange .thisMonth z := by
  have hv := civil_valid z
  unfold reportRange specPeriodRange
  dsimp only
  rw [jsMakeDay_eq _ _ _ hv.1 hv.2.1]

theorem reportRange_thisWeek (z : Int) :
    reportRange .thisWeek z = specPeriodRange .thisWeek z := by
  have hv := civil_valid z
  have hrt := civil_of_days_roundtrip z
  unfold reportRange specPeriodRange
  dsimp only
  rw [jsMakeDay_eq _ _ _ hv.1 hv.2.1]
  have key : daysFromCivil (civilFromDays z).1 (civilFromDays z).2.1
      ((civilFromDays z).2.2 - dowJs z) = z - dowJs z := by
    unfold daysFromCivil at hrt ⊢
    omega
  rw [key]

theorem reportRange_lastWeek (z : Int) :
    reportRange .lastWeek z = specPeriodRange .lastWeek z := by
  have hv := civil_valid z
  have hrt := civil_of_days_roundtrip z
  unfold reportRange specPeriodRange
  dsimp only
  rw [jsMakeDay_eq _ _ _ hv.1 hv.2.1]
  have he : daysFromCivil (civilFromDays z).1 (civilFromDays z).2.1
      ((civilFromDays z).2.2 - dowJs z - 1) = z - dowJs z - 1 := by
    unfold daysFromCivil at hrt ⊢
    omega
  rw [he]
  have hv2 := civil_valid (z - dowJs z - 1)
  have hrt2 := civil_of_days_roundtrip (z - dowJs z - 1)
  rw [jsMakeDay_eq _ _ _ hv2.1 hv2.2.1]
  have key : daysFromCivil (civilFromDays (z - dowJs z - 1)).1
      (civilFromDays (z - dowJs z - 1)).2.1
      ((civilFromDays (z - dowJs z - 1)).2.2 - 6) = z - dowJs z - 7 := by
    unfold daysFromCivil at hrt2 ⊢
    omega
  rw [key]

theorem reportRange_lastMonth (z : Int) :
    reportRange .lastMonth z = specPeriodRange .lastMonth z := by
  have hv := civil_valid z
  unfold reportRange specPeriodRange
  dsimp only
  rw [jsMakeDay_prev_start _ _ hv.1 hv.2.1, lastMonth_end_eq _ _ hv.1 hv.2.1]

/-- C1: for every current day the four period ranges of the report generator
equal the ranges the spec prescribes — first day of the current month through
today; the full previous month (its first through its last day, leap
February included); the most recent Sunday on or before today through today
(the start is a Sunday at most six days back); the seven days ending on the
Saturday just before that Sunday — and on the concrete date 2024-03-15 the
month ranges evaluate to the values the spec quotes. -/
theorem reportRange_spec (z : Int) :
    (∀ p, reportRange p z = specPeriodRange p z) ∧
    (0 ≤ dowJs z ∧ dowJs z < 7 ∧ dowJs (z - dowJs z) = 0 ∧ dowJs (z - dowJs z - 1) = 6) ∧
    reportRange .thisMonth (daysFromCivil 2024 3 15) =
      (daysFromCivil 2024 3 1, daysFromCivil 2024 3 15) ∧
    reportRange .lastMonth (daysFromCivil 2024 3 15) =
      (daysFromCivil 2024 2 1, daysFromCivil 2024 2 29) := by
  refine ⟨?_, ?_, ?_, ?_⟩
  · intro p
    cases p
    · exact reportRange_thisWeek z
    · exact reportRange_lastWeek z
    · exact reportRange_thisMonth z
    · exact reportRange_lastMonth z
  · unfold dowJs
    omega
  · decide
  · decide

/-- Per-category amount sum, written from the spec (section 4.2). -/
def aggAmount (L : List Expense) (c : String) : ℚ :=
  ((L.filter (fun e => e.category = c)).map (fun e => e.amount)).sum

theorem aggAmount_append (l : List Expense) (e : Expense) (c : String) :
    aggAmount (l ++ [e]) c = aggAmount l c + (if e.category = c then e.amount else 0) := by
  unfold aggAmount
  rw [List.filter_append]
  by_cases h : e.category = c
  · simp [h]
  · simp [h]

theorem mem_foldl_fo (l : List String) : ∀ (acc : List String) (c : String),
    c ∈ l.foldl (fun ks x => if x ∈ ks then ks else ks ++ [x]) acc ↔ c ∈ acc ∨ c ∈ l := by
  induction l with
  | nil => simp
  | cons x t ih =>
      intro acc c
      rw [List.foldl_cons, ih]
      by_cases hx : x ∈ acc
      · rw [if_pos hx]
        constructor
        · intro h
          rcases h with h | h
          · exact Or.inl h
          · exact Or.inr (List.mem_cons_of_mem x h)
        · intro h
          rcases h with h | h
          · exact Or.inl h
          · rcases List.mem_cons.mp h with rfl | h2
            · exact Or.inl hx
            · exact Or.inr h2
      · rw [if_neg hx]
        simp only [List.mem_append, List.mem_singleton, List.mem_cons]
        tauto

theorem mem_firstOccurrences (l : List String) (c : String) :
    c ∈ firstOccurrences l ↔ c ∈ l := by
  unfold firstOccurrences
  rw [mem_foldl_fo]
  simp

theorem sum_map_update : ∀ (acc : List (String × ℚ)) (c : String) (a : ℚ),
    (acc.map Prod.fst).Nodup → c ∈ acc.map Prod.fst →
    ((acc.map (fun p => if p.1 = c then (p.1, p.2 + a) else p)).map Prod.snd).sum =
      (acc.map Prod.snd).sum + a
  | [], c, a, _, hc => by simp at hc
  | q :: rest, c, a, hnd, hc => by
      rw [List.map_cons, List.nodup_cons] at hnd
      rw [List.map_cons] at hc
      by_cases hq : q.1 = c
      · have hrest : ∀ p ∈ rest, (if p.1 = c then (p.1, p.2 + a) else p) = p := by
          intro p hp
          rw [if_neg]
          intro hpc
          exact hnd.1 (by
            rw [hq]
            exact List.mem_map.mpr ⟨p, hp, hpc⟩)
        rw [List.map_cons, List.map_congr_left hrest, List.map_id' rest, if_pos hq]
        simp only [List.map_cons, List.sum_cons]
        ring
      · have hc2 : c ∈ rest.map Prod.fst := by
          rcases List.mem_cons.mp hc with h | h
          · exact absurd h.symm hq
          · exact h
        rw [List.map_cons, if_neg hq]
        simp only [List.map_cons, List.sum_cons]
        rw [sum_map_update rest c a hnd.2 hc2]
        ring

theorem pieChartData_inv (L : List Expense) :
    (pieChartData L).map Prod.fst = firstOccurrences (L.map (fun e => e.category)) ∧
    ((pieChartData L).map Prod.fst).Nodup ∧
    (∀ q ∈ pieChartData L, q.2 = aggAmount L q.1) ∧
    ((pieChartData L).map Prod.snd).sum = (L.map (fun e => e.amount)).sum := by
  induction L using List.reverseRecOn with
  | nil => simp [pieChartData, firstOccurrences]
  | append_singleton l e ih =>
      obtain ⟨hkeys, hnd, hval, hsum⟩ := ih
      have hstep : pieChartData (l ++ [e]) =
          addCategoryAmount (pieChartData l) e.category e.amount := by
        simp [pieChartData, List.foldl_append]
      have hfo : firstOccurrences ((l ++ [e]).map (fun x => x.category)) =
          if e.category ∈ firstOccurrences (l.map (fun x => x.category))
          then firstOccurrences (l.map (fun x => x.category))
          else firstOccurrences (l.map (fun x => x.category)) ++ [e.category] := by
        simp [firstOccurrences, List.foldl_append]
      by_cases hc : e.category ∈ (pieChartData l).map Prod.fst
      · have hany : (pieChartData l).any (fun p => p.1 = e.category) = true := by
          rcases List.mem_map.mp hc with ⟨p, hp, hpe⟩
          exact List.any_eq_true.mpr ⟨p, hp, by simp [hpe]⟩
        have hupd : pieChartData (l ++ [e]) =
            (pieChartData l).map
              (fun p => if p.1 = e.category then (p.1, p.2 + e.amount) else p) := by
          rw [hstep]
          unfold addCategoryAmount
          rw [if_pos hany]
        have hkeys2 : (pieChartData (l ++ [e])).map Prod.fst =
            (pieChartData l).map Prod.fst := by
          rw [hupd, List.map_map]
          apply List.map_congr_left
          intro p _
          by_cases hp : p.1 = e.category <;> simp [hp]
        refine ⟨?_, ?_, ?_, ?_⟩
        · rw [hkeys2, hfo, if_pos (hkeys ▸ hc), hkeys]
        · rw [hkeys2]
          exact hnd
        · intro q hq
          rw [hupd] at hq
          rcases List.mem_map.mp hq with ⟨p, hp, hpe⟩
          by_cases hpc : p.1 = e.category
          · rw [if_pos hpc] at hpe
            rw [← hpe]
            dsimp only
            rw [hval p hp, aggAmount_append, hpc, if_pos rfl]
          · rw [if_neg hpc] at hpe
            rw [← hpe, hval p hp, aggAmount_append]
            rw [if_neg (fun hh => hpc hh.symm)]
            ring
        · rw [hupd, sum_map_update (pieChartData l) e.category e.amount hnd hc, hsum]
          simp
      · have hany : (pieChartData l).any (fun p => p.1 = e.category) = false := by
          rw [Bool.eq_false_iff]
          intro hh
          rcases List.any_eq_true.mp hh with ⟨p, hp, hpe⟩
          exact hc (List.mem_map.mpr ⟨p, hp, by simpa using hpe⟩)
        have hupd : pieChartData (l ++ [e]) =
            pieChartData l ++ [(e.category, e.amount)] := by
          rw [hstep]
          unfold addCategoryAmount
          rw [hany]
          simp
        have hnotl : e.category ∉ l.map (fun x => x.category) := by
          rw [← mem_firstOccurrences, ← hkeys]
          exact hc
        refine ⟨?_, ?_, ?_, ?_⟩
        · rw [hupd, hfo, if_neg (hkeys ▸ hc)]
          simp [hkeys]
        · rw [hupd]
          simp only [List.map_append, List.map_cons, List.map_nil]
          rw [List.nodup_append]
          refine ⟨hnd, List.nodup_singleton _, ?_⟩
          intro x hx
          simp only [List.mem_singleton]
          intro hx1
          exact hc (hx1 ▸ hx)
        · intro q hq
          rw [hupd] at hq
          rcases List.mem_append.mp hq with hq | hq
          · rw [hval q hq, aggAmount_append]
            have hqe : ¬ (e.category = q.1) := by
              intro hh
              exact hc (hh ▸ List.mem_map.mpr ⟨q, hq, rfl⟩)
            rw [if_neg hqe]
            ring
          · rcases List.mem_singleton.mp hq with rfl
            dsimp only
            have h0 : aggAmount l e.category = 0 := by
              unfold aggAmount
              rw [List.filter_eq_nil_iff.mpr]
              · simp
              · intro x hx
                simp only [decide_eq_true_eq]
                intro hh
                exact hnotl (List.mem_map.mpr ⟨x, hx, hh⟩)
            rw [aggAmount_append, h0, if_pos rfl]
            ring
        · rw [hupd]
          simp [hsum]

/-- C5: category aggregation produces one entry per distinct category of the
input, in first-occurrence order, with no entry (and in particular no zero
entry) for an absent category; each total is the per-category amount sum, and
the produced totals sum to the total of all amounts. The spec scenario with
Food 100 and Transport 50 evaluates as quoted. -/
theorem pieChartData_spec (L : List Expense) :
    ((pieChartData L).map Prod.fst = firstOccurrences (L.map (fun e => e.category))) ∧
    ((pieChartData L).map Prod.fst).Nodup ∧
    (∀ q ∈ pieChartData L, q.2 = aggAmount L q.1) ∧
    (∀ c, c ∈ (pieChartData L).map Prod.fst ↔ c ∈ L.map (fun e => e.category)) ∧
    (((pieChartData L).map Prod.snd).sum = (L.map (fun e => e.amount)).sum) ∧
    pieChartData
        [{ id := "1", date := "2024-01-01", category := "Food", amount := 100,
           description := "a", paymentMethod := "UPI" },
         { id := "2", date := "2024-01-01", category := "Transport", amount := 50,
           description := "b", paymentMethod := "UPI" }] =
      [("Food", 100), ("Transport", 50)] := by
  obtain ⟨hkeys, hnd, hval, hsum⟩ := pieChartData_inv L
  refine ⟨hkeys, hnd, hval, ?_, hsum, by decide⟩
  intro c
  rw [hkeys, mem_firstOccurrences]

theorem digitChar_inj : ∀ a < 10, ∀ b < 10, digitChar a = digitChar b → a = b := by decide

theorem pad4_inj (a b : Nat) (ha : a < 10000) (hb : b < 10000) (h : pad4 a = pad4 b) :
    a = b := by
  simp only [pad4, List.cons.injEq, and_true] at h
  obtain ⟨h1, h2, h3, h4⟩ := h
  have e1 := digitChar_inj _ (Nat.mod_lt _ (by omega)) _ (Nat.mod_lt _ (by omega)) h1
  have e2 := digitChar_inj _ (Nat.mod_lt _ (by omega)) _ (Nat.mod_lt _ (by omega)) h2
  have e3 := digitChar_inj _ (Nat.mod_lt _ (by omega)) _ (Nat.mod_lt _ (by omega)) h3
  have e4 := digitChar_inj _ (Nat.mod_lt _ (by omega)) _ (Nat.mod_lt _ (by omega)) h4
  omega

theorem pad2_inj (a b : Nat) (ha : a < 100) (hb : b < 100) (h : pad2 a = pad2 b) :
    a = b := by
  simp only [pad2, List.cons.injEq, and_true] at h
  obtain ⟨h1, h2⟩ := h
  have e1 := digitChar_inj _ (Nat.mod_lt _ (by omega)) _ (Nat.mod_lt _ (by omega)) h1
  have e2 := digitChar_inj _ (Nat.mod_lt _ (by omega)) _ (Nat.mod_lt _ (by omega)) h2
  omega

theorem civilFromDays_fst (z : Int) : (civilFromDays z).1 = yearFromDay z := rfl

theorem formatDate_inj (z w : Int) (hz0 : 0 ≤ z) (hz1 : z ≤ 2932896)
    (hw0 : 0 ≤ w) (hw1 : w ≤ 2932896) (h : formatDate z = formatDate w) : z = w := by
  obtain ⟨hzy0, hzy1⟩ := yearFromDay_range hz0 hz1
  obtain ⟨hwy0, hwy1⟩ := yearFromDay_range hw0 hw1
  have hzv := civil_valid z
  have hwv := civil_valid w
  have hzr := civil_of_days_roundtrip z
  have hwr := civil_of_days_roundtrip w
  have hzl := leapN_cases (civilFromDays z).1
  have hwl := leapN_cases (civilFromDays w).1
  have hzd31 := daysInMonthL_le (leapN (civilFromDays z).1) (civilFromDays z).2.1 hzl
  have hwd31 := daysInMonthL_le (leapN (civilFromDays w).1) (civilFromDays w).2.1 hwl
  rw [← civilFromDays_fst z] at hzy0 hzy1
  rw [← civilFromDays_fst w] at hwy0 hwy1
  unfold formatDate at h
  have hdata := congrArg String.data h
  dsimp only at hdata
  obtain ⟨h4, hrest⟩ := List.append_inj hdata rfl
  rw [List.cons.injEq] at hrest
  obtain ⟨-, hrest2⟩ := hrest
  obtain ⟨hm2, hrest3⟩ := List.append_inj hrest2 rfl
  rw [List.cons.injEq] at hrest3
  obtain ⟨-, hd2⟩ := hrest3
  have hy := pad4_inj _ _ (by omega) (by omega) h4
  have hm := pad2_inj _ _ (by omega) (by omega) hm2
  have hd := pad2_inj _ _ (by omega) (by omega) hd2
  have heq : daysFromCivil (civilFromDays z).1 (civilFromDays z).2.1 (civilFromDays z).2.2 =
      daysFromCivil (civilFromDays w).1 (civilFromDays w).2.1 (civilFromDays w).2.2 := by
    have hzy : (civilFromDays z).1 = (civilFromDays w).1 := by omega
    have hzm : (civilFromDays z).2.1 = (civilFromDays w).2.1 := by omega
    have hzd : (civilFromDays z).2.2 = (civilFromDays w).2.2 := by omega
    rw [hzy, hzm, hzd]
  omega

/-- Per-date amount sum over the full list, written from the spec
(section 4.3). -/
def sumOnDate (L : List Expense) (dt : String) : ℚ :=
  ((L.filter (fun e => e.date = dt)).map (fun e => e.amount)).sum

theorem sumOnDate_cons (e : Expense) (t : List Expense) (dt : String) :
    sumOnDate (e :: t) dt = (if e.date = dt then e.amount else 0) + sumOnDate t dt := by
  unfold sumOnDate
  rw [List.filter_cons]
  by_cases h : e.date = dt
  · simp [h]
  · simp [h]

theorem bumpBucket_of_nodup : ∀ (bs : List TrendBucket) (dt : String) (a : ℚ),
    (bs.map (fun b => b.date)).Nodup →
    bumpBucket bs dt a =
      bs.map (fun b => if b.date = dt then { b with amount := b.amount + a } else b)
  | [], _, _, _ => rfl
  | b :: bs, dt, a, hnd => by
      rw [List.map_cons, List.nodup_cons] at hnd
      unfold bumpBucket
      by_cases hb : b.date = dt
      · rw [if_pos hb, List.map_cons, if_pos hb]
        congr 1
        have hrest : ∀ x ∈ bs,
            (if x.date = dt then { x with amount := x.amount + a } else x) = x := by
          intro x hx
          rw [if_neg]
          intro hxd
          exact hnd.1 (List.mem_map.mpr ⟨x, hx, hxd.trans hb.symm⟩)
        rw [List.map_congr_left hrest, List.map_id' bs]
      · rw [if_neg hb, List.map_cons, if_neg hb,
          bumpBucket_of_nodup bs dt a hnd.2]

theorem foldl_bump_eq (L : List Expense) : ∀ (bs : List TrendBucket),
    (bs.map (fun b => b.date)).Nodup →
    L.foldl (fun acc e => bumpBucket acc e.date e.amount) bs =
      bs.map (fun b => { b with amount := b.amount + sumOnDate L b.date }) := by
  induction L with
  | nil =>
      intro bs _
      rw [List.foldl_nil]
      have hb : ∀ b ∈ bs, { b with amount := b.amount + sumOnDate [] b.date } = b := by
        intro b _
        simp [sumOnDate]
      exact ((List.map_congr_left hb).trans (List.map_id' bs)).symm
  | cons e t ih =>
      intro bs hnd
      rw [List.foldl_cons, bumpBucket_of_nodup bs e.date e.amount hnd]
      have hdates : (bs.map (fun b =>
          if b.date = e.date then { b with amount := b.amount + e.amount } else b)).map
            (fun b => b.date) = bs.map (fun b => b.date) := by
        rw [List.map_map]
        apply List.map_congr_left
        intro b _
        by_cases hb : b.date = e.date <;> simp [hb]
      rw [ih _ (by rw [hdates]; exact hnd), List.map_map]
      apply List.map_congr_left
      intro b _
      simp only [Function.comp_apply]
      by_cases hb : b.date = e.date
      · rw [if_pos hb, sumOnDate_cons, if_pos hb.symm]
        simp only [TrendBucket.mk.injEq, true_and]
        ring
      · rw [if_neg hb, sumOnDate_cons, if_neg (fun hh => hb hh.symm)]
        simp only [TrendBucket.mk.injEq, true_and]
        ring

theorem initialBuckets_eq (today : Int) :
    initialBuckets today = (List.range 7).map (fun i =>
      { name := weekdayShort (dowJs (today - 6 + (i : Int)))
        date := formatDate (today - 6 + (i : Int))
        amount := 0 }) := by
  simp only [initialBuckets, List.range_succ, List.range_zero, List.map_append,
    List.map_cons, List.map_nil, List.reverse_append, List.reverse_cons,
    List.reverse_nil, List.nil_append, List.cons_append, List.append_nil,
    List.singleton_append]
  have e1 : today - 6 + (1 : Int) = today - 5 := by ring
  have e2 : today - 6 + (2 : Int) = today - 4 := by ring
  have e3 : today - 6 + (3 : Int) = today - 3 := by ring
  have e4 : today - 6 + (4 : Int) = today - 2 := by ring
  have e5 : today - 6 + (5 : Int) = today - 1 := by ring
  norm_num [e1, e2, e3, e4, e5]

/-- C6: for every current day of the modelled four-digit-year range and every
expense list (the empty list included), the weekly trend is exactly 7 buckets,
one for today and each of the six preceding calendar days, oldest first; each
bucket carries the sum of the amounts of the unfiltered expenses whose date
equals that bucket key, and a bucket no expense matches still appears, with
amount 0. -/
theorem weeklyTrendData_spec (today : Int) (L : List Expense)
    (h0 : 0 ≤ today - 6) (h1 : today ≤ 2932896) :
    weeklyTrendData today L = (List.range 7).map (fun i =>
      { name := weekdayShort (dowJs (today - 6 + (i : Int)))
        date := formatDate (today - 6 + (i : Int))
        amount := sumOnDate L (formatDate (today - 6 + (i : Int))) }) ∧
    (weeklyTrendData today L).length = 7 ∧
    (weeklyTrendData today L).map (fun b => b.date) =
      (List.range 7).map (fun i : Nat => formatDate (today - 6 + (i : Int))) ∧
    (∀ b ∈ weeklyTrendData today L, (∀ e ∈ L, e.date ≠ b.date) → b.amount = 0) := by
  have hnd : ((initialBuckets today).map (fun b => b.date)).Nodup := by
    rw [initialBuckets_eq, List.map_map]
    refine List.Nodup.map_on ?_ (List.nodup_range 7)
    intro x hx y hy hf
    rw [List.mem_range] at hx hy
    simp only [Function.comp_apply] at hf
    have := formatDate_inj (today - 6 + x) (today - 6 + y)
      (by omega) (by omega) (by omega) (by omega) hf
    omega
  have hmain : weeklyTrendData today L = (initialBuckets today).map
      (fun b => { b with amount := b.amount + sumOnDate L b.date }) := by
    unfold weeklyTrendData
    exact foldl_bump_eq L (initialBuckets today) hnd
  have hful : weeklyTrendData today L = (List.range 7).map (fun i =>
      { name := weekdayShort (dowJs (today - 6 + (i : Int)))
        date := formatDate (today - 6 + (i : Int))
        amount := sumOnDate L (formatDate (today - 6 + (i : Int))) }) := by
    rw [hmain, initialBuckets_eq, List.map_map]
    apply List.map_congr_left
    intro i _
    simp
  refine ⟨hful, ?_, ?_, ?_⟩
  · rw [hful]
    simp
  · rw [hful, List.map_map]
    apply List.map_congr_left
    intro i _
    rfl
  · intro b hb hno
    rw [hful] at hb
    rcases List.mem_map.mp hb with ⟨i, _, hbe⟩
    have hz : sumOnDate L b.date = 0 := by
      unfold sumOnDate
      rw [List.filter_eq_nil_iff.mpr]
      · simp
      · intro x hx
        simp only [decide_eq_true_eq]
        exact hno x hx
    rw [← hbe] at hz ⊢
    exact hz

/-- Concrete instance of the weekly-trend theorem at day 19797 (2024-03-15)
with an empty expense list. -/
theorem weeklyTrendData_spec_witness : (weeklyTrendData 19797 []).length = 7 :=
  (weeklyTrendData_spec 19797 [] (by decide) (by decide)).2.1

/-- C2 counterexample: handleSaveExpense performs no validation. A creation
submission with no amount and no description is not rejected — the expense is
constructed anyway, with amount 0 and empty description, and enters the stored
list, violating the data-model invariant. -/
theorem handleSaveExpense_no_validation_cex :
    handleSaveExpense "2024-03-15T10:00:00.000Z" "2024-03-15"
        { id := none, date := none, category := none, amount := none,
          description := none, paymentMethod := none } [] =
      [{ id := "2024-03-15T10:00:00.000Z", date := "2024-03-15", category := "Other",
         amount := 0, description := "", paymentMethod := "UPI" }] ∧
    ¬ specExpenseValid
        { id := "2024-03-15T10:00:00.000Z", date := "2024-03-15", category := "Other",
          amount := 0, description := "", paymentMethod := "UPI" } := by
  constructor
  · rfl
  · intro h
    exact absurd h.1 (by norm_num)

/-- C2 amended: the save handler itself rejects nothing (the counterexample
shows an invalid submission entering the list with defaulted fields, and the
fresh id is a bare timestamp the code does not check for collisions); input
rejection lives in the form markup outside this function. What does hold: when
the submitted fields are themselves valid — amount present and positive,
description present and non-empty, date absent or canonical, category and
payment method absent or members of their closed sets — and the generated id
does not already occur in the stored list, the saved list satisfies the whole
data-model invariant again, and an edit — a submission whose id is truthy,
i.e. present and non-empty — whose cast record is valid preserves it likewise
(ids are untouched pointwise, so uniqueness survives). -/
theorem handleSaveExpense_invariant (freshId today : String) (sub : PartialExpense)
    (prev : List Expense)
    (hvalid : ∀ e ∈ prev, specExpenseValid e) (huniq : idsUnique prev) :
    ((sub.id = none ∨ sub.id = some "") →
      (∀ a, sub.amount = some a → 0 < a) → sub.amount ≠ none →
      (∀ s, sub.description = some s → s ≠ "") → sub.description ≠ none →
      (∀ s, sub.date = some s → s ≠ "" → dateRegexOk s = true) →
      dateRegexOk today = true →
      (∀ s, sub.category = some s → s ≠ "" → s ∈ CATEGORIES) →
      (∀ s, sub.paymentMethod = some s → s ≠ "" → s ∈ PAYMENT_METHODS) →
      (∀ e ∈ prev, e.id ≠ freshId) →
      ((∀ e ∈ handleSaveExpense freshId today sub prev, specExpenseValid e) ∧
        idsUnique (handleSaveExpense freshId today sub prev))) ∧
    (∀ i, sub.id = some i → i ≠ "" → specExpenseValid (castExpense i sub) →
      ((∀ e ∈ handleSaveExpense freshId today sub prev, specExpenseValid e) ∧
        idsUnique (handleSaveExpense freshId today sub prev))) := by
  constructor
  · intro hid hpos hsome hdesc hdsome hdate htoday hcat hpm hfresh
    have hdefn : handleSaveExpense freshId today sub prev =
        buildNewExpense freshId today sub :: prev := by
      rcases hid with hid | hid <;> simp [handleSaveExpense, hid]
    rw [hdefn]
    constructor
    · intro e he
      rcases List.mem_cons.mp he with rfl | he2
      · unfold buildNewExpense specExpenseValid
        refine ⟨?_, ?_, ?_, ?_, ?_⟩
        · rcases hamt : sub.amount with _ | a
          · exact absurd hamt hsome
          · have ha := hpos a hamt
            dsimp only
            simp only [jsOrNum]
            have hne : ¬ (a = 0) := by
              intro hh
              rw [hh] at ha
              exact lt_irrefl 0 ha
            rw [if_neg hne]
            exact ha
        · rcases hdt : sub.date with _ | s
          · dsimp only
            exact htoday
          · dsimp only
            simp only [jsOrStr]
            by_cases hs : s = ""
            · rw [if_pos hs]
              exact htoday
            · rw [if_neg hs]
              exact hdate s hdt hs
        · rcases hds : sub.description with _ | s
          · exact absurd hds hdsome
          · have hs := hdesc s hds
            dsimp only
            simp only [jsOrStr]
            rw [if_neg hs]
            exact hs
        · rcases hc : sub.category with _ | s
          · dsimp only
            decide
          · dsimp only
            simp only [jsOrStr]
            by_cases hs : s = ""
            · rw [if_pos hs]
              decide
            · rw [if_neg hs]
              exact hcat s hc hs
        · rcases hp : sub.paymentMethod with _ | s
          · dsimp only
            decide
          · dsimp only
            simp only [jsOrStr]
            by_cases hs : s = ""
            · rw [if_pos hs]
              decide
            · rw [if_neg hs]
              exact hpm s hp hs
      · exact hvalid e he2
    · unfold idsUnique
      rw [List.map_cons, List.nodup_cons]
      refine ⟨?_, huniq⟩
      intro hmem
      rcases List.mem_map.mp hmem with ⟨e, he, heid⟩
      exact hfresh e he (heid.trans rfl)
  · intro i hid hine hcastvalid
    have hdefn : handleSaveExpense freshId today sub prev =
        prev.map (fun x => if x.id = i then castExpense i sub else x) := by
      simp only [handleSaveExpense, hid]
      rw [if_neg hine]
    rw [hdefn]
    constructor
    · intro e he
      rcases List.mem_map.mp he with ⟨x, hx, hxe⟩
      by_cases hxi : x.id = i
      · rw [if_pos hxi] at hxe
        rw [← hxe]
        exact hcastvalid
      · rw [if_neg hxi] at hxe
        rw [← hxe]
        exact hvalid x hx
    · unfold idsUnique
      have hids : (prev.map (fun x => if x.id = i then castExpense i sub else x)).map
          (fun e => e.id) = prev.map (fun e => e.id) := by
        rw [List.map_map]
        apply List.map_congr_left
        intro x _
        by_cases hxi : x.id = i
        · simp [hxi, castExpense]
        · simp [hxi]
      rw [hids]
      exact huniq

/-- Concrete instance of the amended save invariant: a fully valid creation
submission saved onto the empty list yields a valid, uniquely-identified
list. -/
theorem handleSaveExpense_invariant_witness :
    (∀ e ∈ handleSaveExpense "id1" "2024-03-15"
        { id := none, date := some "2024-03-14", category := some "Food",
          amount := some 5, description := some "tea", paymentMethod := some "Cash" } [],
      specExpenseValid e) ∧
    idsUnique (handleSaveExpense "id1" "2024-03-15"
        { id := none, date := some "2024-03-14", category := some "Food",
          amount := some 5, description := some "tea", paymentMethod := some "Cash" } []) :=
  (handleSaveExpense_invariant "id1" "2024-03-15"
      { id := none, date := some "2024-03-14", category := some "Food",
        amount := some 5, description := some "tea", paymentMethod := some "Cash" } []
      (by simp) (by simp [idsUnique])).1
    (Or.inl rfl)
    (by intro a ha; injection ha with h; rw [← h]; norm_num)
    (by simp)
    (by intro s hs; injection hs with h; rw [← h]; decide)
    (by simp)
    (by intro s hs hne; injection hs with h; rw [← h]; decide)
    (by decide)
    (by intro s hs hne; injection hs with h; rw [← h]; decide)
    (by intro s hs hne; injection hs with h; rw [← h]; decide)
    (by simp)
